import Mathlib

/-!
Verification of the AI-VideoTranslator transcription-and-subtitling pipeline.

The Python source is embedded shallowly:

* machine reals carrying times are modelled as exact whole milliseconds
  (`Nat`); every concrete time in the specification is millisecond-exact,
  so Python's float arithmetic `seconds // 3600`, `seconds % 60`,
  `int(seconds % 1 * 1000)` coincides with the `Nat` divisions used here;
* Python strings are Lean `String`s; `str.join`, `str.split`,
  single-character `str.replace` are given faithful executable models;
* network and filesystem effects are passed in explicitly (a transcription
  backend becomes a function of the raw data the remote side returns, the
  poll loop becomes a function of the sequence of statuses the service
  reports, the CLI command becomes a function of each stage's outcome).
-/

namespace VideoTranslator

/-! ### Generic list splitting and joining

`splitSep p l` splits `l` at every element satisfying `p`, keeping empty
chunks, exactly like Python's `str.split(sep)` for a one-element separator.
`joinSep s gs` is the inverse (Python `sep.join`).
-/

def splitSep {α : Type} (p : α → Bool) : List α → List (List α)
  | [] => [[]]
  | x :: xs =>
    if p x then [] :: splitSep p xs
    else
      match splitSep p xs with
      | [] => [[x]]
      | r :: rs => (x :: r) :: rs

def joinSep {α : Type} (s : α) : List (List α) → List α
  | [] => []
  | [g] => g
  | g :: gs => g ++ s :: joinSep s gs

/-- Python's `sep.join(strings)`. -/
def joinWith (sep : String) : List String → String
  | [] => ""
  | [x] => x
  | x :: xs => x ++ sep ++ joinWith sep xs

theorem splitSep_ne_nil {α : Type} (p : α → Bool) (l : List α) :
    splitSep p l ≠ [] := by
  cases l with
  | nil => simp [splitSep]
  | cons x xs =>
    simp only [splitSep]
    split
    · simp
    · split <;> simp

theorem splitSep_cons_of_pos {α : Type} (p : α → Bool) (x : α) (xs : List α)
    (h : p x = true) : splitSep p (x :: xs) = [] :: splitSep p xs := by
  simp [splitSep, h]

theorem splitSep_cons_of_neg {α : Type} (p : α → Bool) (x : α) (xs : List α)
    (r : List α) (rs : List (List α)) (h : p x = false)
    (hs : splitSep p xs = r :: rs) :
    splitSep p (x :: xs) = (x :: r) :: rs := by
  simp [splitSep, h, hs]

/-- Splitting a separator-free list yields a single chunk. -/
theorem splitSep_of_forall_neg {α : Type} (p : α → Bool) (l : List α)
    (h : ∀ x ∈ l, p x = false) : splitSep p l = [l] := by
  induction l with
  | nil => rfl
  | cons x xs ih =>
    have hx : p x = false := h x (by simp)
    have hxs : splitSep p xs = [xs] := ih (fun y hy => h y (by simp [hy]))
    simp [splitSep, hx, hxs]

/-- Splitting past a separator-free chunk peels off exactly that chunk. -/
theorem splitSep_append {α : Type} (p : α → Bool) (a : List α) (s : α)
    (b : List α) (hs : p s = true) (ha : ∀ x ∈ a, p x = false) :
    splitSep p (a ++ s :: b) = a :: splitSep p b := by
  induction a with
  | nil => simpa using splitSep_cons_of_pos p s b hs
  | cons x a' ih =>
    have hx : p x = false := ha x (by simp)
    have ha' : ∀ y ∈ a', p y = false := fun y hy => ha y (by simp [hy])
    obtain ⟨r, rs, hr⟩ := List.exists_cons_of_ne_nil (splitSep_ne_nil p b)
    have step := ih ha'
    rw [hr] at step
    have := splitSep_cons_of_neg p x (a' ++ s :: b) a' (r :: rs) hx step
    simpa [hr] using this

/-- No chunk produced by `splitSep` contains a separator. -/
theorem splitSep_sep_free {α : Type} (p : α → Bool) (l : List α) :
    ∀ g ∈ splitSep p l, ∀ x ∈ g, p x = false := by
  induction l with
  | nil =>
    intro g hg x hx
    simp [splitSep] at hg
    subst hg
    simp at hx
  | cons y ys ih =>
    intro g hg x hx
    by_cases hy : p y = true
    · rw [splitSep_cons_of_pos p y ys hy] at hg
      rcases List.mem_cons.mp hg with hg | hg
      · subst hg; simp at hx
      · exact ih g hg x hx
    · have hy' : p y = false := by simpa using hy
      obtain ⟨r, rs, hr⟩ := List.exists_cons_of_ne_nil (splitSep_ne_nil p ys)
      rw [splitSep_cons_of_neg p y ys r rs hy' hr] at hg
      rcases List.mem_cons.mp hg with hg | hg
      · subst hg
        rcases List.mem_cons.mp hx with hx | hx
        · subst hx; exact hy'
        · exact ih r (by rw [hr]; exact List.mem_cons_self r rs) x hx
      · exact ih g (by rw [hr]; exact List.mem_cons_of_mem r hg) x hx

/-- `joinSep` undoes `splitSep` on the separator it splits on. -/
theorem joinSep_splitSep (s : Char) (l : List Char) :
    joinSep s (splitSep (fun c => c == s) l) = l := by
  induction l with
  | nil => rfl
  | cons x xs ih =>
    obtain ⟨r, rs, hr⟩ := List.exists_cons_of_ne_nil
      (splitSep_ne_nil (fun c => c == s) xs)
    by_cases hx : x = s
    · subst hx
      rw [splitSep_cons_of_pos _ x xs (by simp)]
      rw [hr] at ih ⊢
      cases rs with
      | nil => simpa [joinSep] using ih
      | cons r' rs' => simpa [joinSep] using ih
    · rw [splitSep_cons_of_neg _ x xs r rs (by simpa using hx) hr]
      rw [hr] at ih
      cases rs with
      | nil => simpa [joinSep] using ih
      | cons r' rs' => simpa [joinSep] using ih

/-- `splitSep` undoes `joinSep` when every chunk is separator-free. -/
theorem splitSep_joinSep {α : Type} (p : α → Bool) (s : α) (parts : List (List α))
    (hs : p s = true) (hp : ∀ g ∈ parts, ∀ x ∈ g, p x = false)
    (hne : parts ≠ []) : splitSep p (joinSep s parts) = parts := by
  induction parts with
  | nil => exact absurd rfl hne
  | cons g gs ih =>
    cases gs with
    | nil =>
      exact splitSep_of_forall_neg p g (hp g (by simp))
    | cons g' gs' =>
      have hg : ∀ x ∈ g, p x = false := hp g (by simp)
      have hrest : splitSep p (joinSep s (g' :: gs')) = g' :: gs' :=
        ih (fun h hh x hx => hp h (by simp [hh]) x hx) (by simp)
      calc splitSep p (joinSep s (g :: g' :: gs'))
          = splitSep p (g ++ s :: joinSep s (g' :: gs')) := by rfl
        _ = g :: splitSep p (joinSep s (g' :: gs')) := splitSep_append p g s _ hs hg
        _ = g :: g' :: gs' := by rw [hrest]

theorem joinSep_cons_cons {α : Type} (s : α) (g h : List α) (t : List (List α)) :
    joinSep s (g :: h :: t) = g ++ s :: joinSep s (h :: t) := rfl

/-- Joining concatenated non-empty part lists inserts one separator between
them. -/
theorem joinSep_append {α : Type} (s : α) (xs ys : List (List α))
    (hx : xs ≠ []) (hy : ys ≠ []) :
    joinSep s (xs ++ ys) = joinSep s xs ++ s :: joinSep s ys := by
  induction xs with
  | nil => exact absurd rfl hx
  | cons g gs ih =>
    cases gs with
    | nil =>
      cases ys with
      | nil => exact absurd rfl hy
      | cons y ys' => simp [joinSep, joinSep_cons_cons]
    | cons g' gs' =>
      have hrec := ih (by simp)
      simp only [List.cons_append] at hrec ⊢
      rw [joinSep_cons_cons, hrec, joinSep_cons_cons, List.append_assoc]
      rfl

/-! ### Decimal digits

Python's `str(n)` and `'{:02}'.format(n)` for a non-negative integer.
The digit emitter is fuel-based so that the kernel can evaluate it.
-/

def digitVal (c : Char) : Nat := c.toNat - 48

def isDigitChar (c : Char) : Bool := 48 ≤ c.toNat && c.toNat ≤ 57

/-- Little-endian decimal digits of `n`; `fuel` must exceed `n`. -/
def natDigitsLEAux : Nat → Nat → List Char
  | 0, _ => []
  | fuel + 1, n =>
    if n < 10 then [Nat.digitChar n]
    else Nat.digitChar (n % 10) :: natDigitsLEAux fuel (n / 10)

/-- Big-endian decimal digit string of `n` (Python `str(n)` for `n ≥ 0`). -/
def natRepr (n : Nat) : List Char := (natDigitsLEAux (n + 1) n).reverse

/-- Python `'{:0Nd}'.format(n)`: left-pad with zeros to width `w`. -/
def padZeros (w : Nat) (l : List Char) : List Char :=
  List.replicate (w - l.length) '0' ++ l

def fmtPad (w n : Nat) : List Char := padZeros w (natRepr n)

/-- Python `int(s)` restricted to plain decimal strings: `none` unless the
string is non-empty and all digits. -/
def parseNat (l : List Char) : Option Nat :=
  if l.isEmpty then none
  else if l.all isDigitChar then
    some (l.foldl (fun a c => a * 10 + digitVal c) 0)
  else none

/-- Value of a little-endian digit list. -/
def valLE : List Char → Nat
  | [] => 0
  | c :: cs => digitVal c + 10 * valLE cs

theorem digitVal_digitChar (d : Nat) (h : d < 10) :
    digitVal (Nat.digitChar d) = d := by
  interval_cases d <;> decide

theorem isDigitChar_digitChar (d : Nat) (h : d < 10) :
    isDigitChar (Nat.digitChar d) = true := by
  interval_cases d <;> decide

theorem natDigitsLEAux_ne_nil (fuel n : Nat) (h : n < fuel) :
    natDigitsLEAux fuel n ≠ [] := by
  cases fuel with
  | zero => omega
  | succ f =>
    simp only [natDigitsLEAux]
    split <;> simp

theorem natDigitsLEAux_all_digits (fuel : Nat) :
    ∀ n, n < fuel → ∀ c ∈ natDigitsLEAux fuel n, isDigitChar c = true := by
  induction fuel with
  | zero => intro n h; omega
  | succ f ih =>
    intro n h c hc
    simp only [natDigitsLEAux] at hc
    by_cases h10 : n < 10
    · simp [h10] at hc
      subst hc
      exact isDigitChar_digitChar n h10
    · simp [h10] at hc
      rcases hc with hc | hc
      · subst hc
        exact isDigitChar_digitChar (n % 10) (Nat.mod_lt n (by omega))
      · have hdiv : n / 10 < f := by
          have h1 : n / 10 < n := Nat.div_lt_self (by omega) (by omega)
          omega
        exact ih (n / 10) hdiv c hc

theorem valLE_natDigitsLEAux (fuel : Nat) :
    ∀ n, n < fuel → valLE (natDigitsLEAux fuel n) = n := by
  induction fuel with
  | zero => intro n h; omega
  | succ f ih =>
    intro n h
    simp only [natDigitsLEAux]
    by_cases h10 : n < 10
    · simp [h10, valLE, digitVal_digitChar n h10]
    · have hdiv : n / 10 < f := by
        have h1 : n / 10 < n := Nat.div_lt_self (by omega) (by omega)
        omega
      simp only [h10, if_false, valLE]
      rw [digitVal_digitChar (n % 10) (Nat.mod_lt n (by omega)), ih (n / 10) hdiv]
      omega

theorem foldl_digits_reverse (l : List Char) (a : Nat) :
    (l.reverse).foldl (fun acc c => acc * 10 + digitVal c) a
      = a * 10 ^ l.length + valLE l := by
  induction l generalizing a with
  | nil => simp [valLE]
  | cons c cs ih =>
    simp only [List.reverse_cons, List.foldl_append, List.foldl_cons,
      List.foldl_nil, ih, List.length_cons, valLE]
    ring

theorem natRepr_ne_nil (n : Nat) : natRepr n ≠ [] := by
  simp only [natRepr, ne_eq, List.reverse_eq_nil_iff]
  exact natDigitsLEAux_ne_nil (n + 1) n (Nat.lt_succ_self n)

theorem natRepr_all_digits (n : Nat) :
    ∀ c ∈ natRepr n, isDigitChar c = true := by
  intro c hc
  rw [natRepr, List.mem_reverse] at hc
  exact natDigitsLEAux_all_digits (n + 1) n (Nat.lt_succ_self n) c hc

theorem parseNat_natRepr (n : Nat) : parseNat (natRepr n) = some n := by
  have hne : natRepr n ≠ [] := natRepr_ne_nil n
  have hall : (natRepr n).all isDigitChar = true :=
    List.all_eq_true.mpr (natRepr_all_digits n)
  simp only [parseNat, List.isEmpty_iff, hne, if_false, hall, if_true]
  rw [natRepr, foldl_digits_reverse]
  simp [valLE_natDigitsLEAux (n + 1) n (Nat.lt_succ_self n)]

theorem fmtPad_all_digits (w n : Nat) :
    ∀ c ∈ fmtPad w n, isDigitChar c = true := by
  intro c hc
  simp only [fmtPad, padZeros, List.mem_append, List.mem_replicate] at hc
  rcases hc with ⟨_, hc⟩ | hc
  · subst hc; decide
  · exact natRepr_all_digits n c hc

theorem foldl_digits_replicate_zero (k : Nat) :
    (List.replicate k '0').foldl (fun acc c => acc * 10 + digitVal c) 0 = 0 := by
  induction k with
  | zero => rfl
  | succ m ih => simpa [List.replicate_succ] using ih

theorem parseNat_fmtPad (w n : Nat) : parseNat (fmtPad w n) = some n := by
  have hne : fmtPad w n ≠ [] := by
    simp only [fmtPad, padZeros, ne_eq, List.append_eq_nil]
    rintro ⟨-, h⟩
    exact natRepr_ne_nil n h
  have hall : (fmtPad w n).all isDigitChar = true :=
    List.all_eq_true.mpr (fmtPad_all_digits w n)
  simp only [parseNat, List.isEmpty_iff, hne, if_false, hall, if_true]
  simp only [fmtPad, padZeros, List.foldl_append, foldl_digits_replicate_zero]
  have := parseNat_natRepr n
  have hne2 : natRepr n ≠ [] := natRepr_ne_nil n
  have hall2 : (natRepr n).all isDigitChar = true :=
    List.all_eq_true.mpr (natRepr_all_digits n)
  simp only [parseNat, List.isEmpty_iff, hne2, if_false, hall2, if_true,
    Option.some_inj] at this
  exact congrArg some this

/-- A decimal digit is none of the structural characters of an SRT file. -/
theorem digit_ne_char (c : Char) (hc : isDigitChar c = true) (ch : Char)
    (h : ch.toNat < 48 ∨ 57 < ch.toNat) : (c == ch) = false := by
  simp only [isDigitChar, Bool.and_eq_true, decide_eq_true_eq] at hc
  simp only [beq_eq_false_iff_ne, ne_eq]
  intro he
  subst he
  omega

/-! ### Data model — `src/videotranslator/models/transcription.py`

`SubtitleSegment` and `TranscriptionResult` as in the source; times are in
whole milliseconds (see the header comment).
-/

structure SubtitleSegment where
  index : Nat
  start_time : Nat
  end_time : Nat
  text : String
deriving DecidableEq, Repr

structure TranscriptionResult where
  segments : List SubtitleSegment
  language : String
  source_file : String
deriving DecidableEq, Repr

/-- `SubtitleSegment._format_timestamp`:
`hours = int(seconds // 3600)`, `minutes = int((seconds % 3600) // 60)`,
`secs = int(seconds % 60)`, `millis = int((seconds % 1) * 1000)`,
rendered `"HH:MM:SS,mmm"` with 2/2/2/3 zero padding; on `ms` milliseconds
these are the four `Nat` quantities below. -/
def formatTimestamp (ms : Nat) : String :=
  String.mk
    (fmtPad 2 (ms / 3600000) ++ ':' ::
      (fmtPad 2 (ms % 3600000 / 60000) ++ ':' ::
        (fmtPad 2 (ms % 60000 / 1000) ++ ',' :: fmtPad 3 (ms % 1000))))

/-- `SubtitleSegment.to_srt_format`: the f-string
`"{index}\n{start} --> {end}\n{text}\n"` (a single trailing newline). -/
def SubtitleSegment.to_srt_format (seg : SubtitleSegment) : String :=
  String.mk (natRepr seg.index) ++ "\n" ++ formatTimestamp seg.start_time
    ++ " --> " ++ formatTimestamp seg.end_time ++ "\n" ++ seg.text ++ "\n"

/-- `TranscriptionResult.to_srt`: `"\n".join(segment.to_srt_format() ...)`. -/
def TranscriptionResult.to_srt (r : TranscriptionResult) : String :=
  joinWith "\n" (r.segments.map SubtitleSegment.to_srt_format)

/-! ### SRT parser -/

/-- Modelled from the spec: parse one `HH:MM:SS,mmm` timestamp back to
milliseconds (split on `:`, then the seconds field on `,`). -/
def parseTimestamp (l : List Char) : Option Nat :=
  match splitSep (fun c => c == ':') l with
  | [hh, mm, rest] =>
    match splitSep (fun c => c == ',') rest with
    | [ss, mmm] =>
      match parseNat hh, parseNat mm, parseNat ss, parseNat mmm with
      | some h, some m, some s, some mil =>
        some (h * 3600000 + m * 60000 + s * 1000 + mil)
      | _, _, _, _ => none
    | _ => none
  | _ => none

/-- Modelled from the spec: parse a `"{start} --> {end}"` timestamp-range
line. -/
def parseTimestampLine (l : List Char) : Option (Nat × Nat) :=
  match splitSep (fun c => c == ' ') l with
  | [a, arrow, b] =>
    if arrow = ['-', '-', '>'] then
      match parseTimestamp a, parseTimestamp b with
      | some st, some en => some (st, en)
      | _, _ => none
    else none
  | _ => none

/-- Modelled from the spec: a block is index line, timestamp-range line and
at least one text line; anything shorter is malformed and yields `none`. -/
def parseBlock : List (List Char) → Option SubtitleSegment
  | idxL :: tsL :: t1 :: ts =>
    match parseNat idxL, parseTimestampLine tsL with
    | some i, some (st, en) =>
      some ⟨i, st, en, String.mk (joinSep '\n' (t1 :: ts))⟩
    | _, _ => none
  | _ => none

/-- Modelled from the spec: `parse_srt` is absent from the repository's
source (§4.3 describes it as the inverse of `format_srt` for round-trip
testing); split the text into lines, group the lines into
blank-line-delimited blocks, and skip malformed blocks instead of failing. -/
def parse_srt (s : String) : List SubtitleSegment :=
  ((splitSep (fun l : List Char => l.isEmpty)
      (splitSep (fun c => c == '\n') s.data)).filterMap parseBlock)

/-! ### Round-trip lemmas -/

theorem formatTimestamp_chars (ms : Nat) :
    ∀ c ∈ (formatTimestamp ms).data,
      isDigitChar c = true ∨ c = ':' ∨ c = ',' := by
  intro c hc
  have hc' : c ∈ fmtPad 2 (ms / 3600000) ++ ':' ::
      (fmtPad 2 (ms % 3600000 / 60000) ++ ':' ::
        (fmtPad 2 (ms % 60000 / 1000) ++ ',' :: fmtPad 3 (ms % 1000))) := hc
  clear hc
  simp only [List.mem_append, List.mem_cons] at hc'
  rcases hc' with hc | hc | hc | hc | hc | hc | hc
  · exact Or.inl (fmtPad_all_digits 2 _ c hc)
  · exact Or.inr (Or.inl hc)
  · exact Or.inl (fmtPad_all_digits 2 _ c hc)
  · exact Or.inr (Or.inl hc)
  · exact Or.inl (fmtPad_all_digits 2 _ c hc)
  · exact Or.inr (Or.inr hc)
  · exact Or.inl (fmtPad_all_digits 3 _ c hc)

theorem parseTimestamp_format (ms : Nat) :
    parseTimestamp (formatTimestamp ms).data = some ms := by
  have hA : ∀ x ∈ fmtPad 2 (ms / 3600000), (x == ':') = false := fun x hx =>
    digit_ne_char x (fmtPad_all_digits 2 _ x hx) ':' (Or.inr (by decide))
  have hB : ∀ x ∈ fmtPad 2 (ms % 3600000 / 60000), (x == ':') = false :=
    fun x hx =>
      digit_ne_char x (fmtPad_all_digits 2 _ x hx) ':' (Or.inr (by decide))
  have hCD : ∀ x ∈ fmtPad 2 (ms % 60000 / 1000) ++ ',' :: fmtPad 3 (ms % 1000),
      (x == ':') = false := by
    intro x hx
    rcases List.mem_append.mp hx with hx | hx
    · exact digit_ne_char x (fmtPad_all_digits 2 _ x hx) ':' (Or.inr (by decide))
    · rcases List.mem_cons.mp hx with hx | hx
      · subst hx; decide
      · exact digit_ne_char x (fmtPad_all_digits 3 _ x hx) ':' (Or.inr (by decide))
  have hC : ∀ x ∈ fmtPad 2 (ms % 60000 / 1000), (x == ',') = false := fun x hx =>
    digit_ne_char x (fmtPad_all_digits 2 _ x hx) ',' (Or.inl (by decide))
  have hD : ∀ x ∈ fmtPad 3 (ms % 1000), (x == ',') = false := fun x hx =>
    digit_ne_char x (fmtPad_all_digits 3 _ x hx) ',' (Or.inl (by decide))
  have h1 : splitSep (fun c => c == ':') ((formatTimestamp ms).data)
      = [fmtPad 2 (ms / 3600000), fmtPad 2 (ms % 3600000 / 60000),
          fmtPad 2 (ms % 60000 / 1000) ++ ',' :: fmtPad 3 (ms % 1000)] := by
    show splitSep _ (fmtPad 2 (ms / 3600000) ++ ':' ::
      (fmtPad 2 (ms % 3600000 / 60000) ++ ':' ::
        (fmtPad 2 (ms % 60000 / 1000) ++ ',' :: fmtPad 3 (ms % 1000)))) = _
    rw [splitSep_append _ _ ':' _ (by decide) hA,
      splitSep_append _ _ ':' _ (by decide) hB,
      splitSep_of_forall_neg _ _ hCD]
  have h2 : splitSep (fun c => c == ',')
      (fmtPad 2 (ms % 60000 / 1000) ++ ',' :: fmtPad 3 (ms % 1000))
      = [fmtPad 2 (ms % 60000 / 1000), fmtPad 3 (ms % 1000)] := by
    rw [splitSep_append _ _ ',' _ (by decide) hC,
      splitSep_of_forall_neg _ _ hD]
  simp only [parseTimestamp, h1, h2, parseNat_fmtPad, Option.some_inj]
  omega

/-- Every character of a formatted timestamp differs from `ch` when `ch` is
neither a digit nor `:` nor `,`. -/
theorem formatTimestamp_ne (ms : Nat) (ch : Char)
    (h : ch.toNat < 48 ∨ 57 < ch.toNat)
    (h1 : ((':' : Char) == ch) = false) (h2 : ((',' : Char) == ch) = false) :
    ∀ x ∈ (formatTimestamp ms).data, (x == ch) = false := by
  intro x hx
  rcases formatTimestamp_chars ms x hx with hd | hc | hc
  · exact digit_ne_char x hd ch h
  · subst hc; exact h1
  · subst hc; exact h2

theorem parseTimestampLine_format (st en : Nat) :
    parseTimestampLine ((formatTimestamp st).data
        ++ ' ' :: '-' :: '-' :: '>' :: ' ' :: (formatTimestamp en).data)
      = some (st, en) := by
  have hA : ∀ x ∈ (formatTimestamp st).data, (x == ' ') = false :=
    formatTimestamp_ne st ' ' (Or.inl (by decide)) (by decide) (by decide)
  have hB : ∀ x ∈ (formatTimestamp en).data, (x == ' ') = false :=
    formatTimestamp_ne en ' ' (Or.inl (by decide)) (by decide) (by decide)
  have harrow : ∀ x ∈ (['-', '-', '>'] : List Char), (x == ' ') = false := by
    decide
  have h1 : splitSep (fun c => c == ' ')
      ((formatTimestamp st).data
        ++ ' ' :: '-' :: '-' :: '>' :: ' ' :: (formatTimestamp en).data)
      = [(formatTimestamp st).data, ['-', '-', '>'],
          (formatTimestamp en).data] := by
    rw [splitSep_append _ _ ' ' _ (by decide) hA]
    have : ('-' :: '-' :: '>' :: ' ' :: (formatTimestamp en).data)
        = ['-', '-', '>'] ++ ' ' :: (formatTimestamp en).data := rfl
    rw [this, splitSep_append _ _ ' ' _ (by decide) harrow,
      splitSep_of_forall_neg _ _ hB]
  simp [parseTimestampLine, h1, parseTimestamp_format]

/-! ### Block structure of the formatted output -/

/-- The lines a formatted segment contributes: index line, timestamp-range
line, and the segment text split at its newlines. -/
def segLines (seg : SubtitleSegment) : List (List Char) :=
  natRepr seg.index
    :: ((formatTimestamp seg.start_time).data
        ++ ' ' :: '-' :: '-' :: '>' :: ' ' :: (formatTimestamp seg.end_time).data)
    :: splitSep (fun c => c == '\n') seg.text.data

theorem to_srt_format_data (seg : SubtitleSegment) :
    (seg.to_srt_format).data = joinSep '\n' (segLines seg ++ [[]]) := by
  obtain ⟨t1, ts, ht⟩ := List.exists_cons_of_ne_nil
    (splitSep_ne_nil (fun c => c == '\n') seg.text.data)
  have htext : joinSep '\n' (splitSep (fun c => c == '\n') seg.text.data)
      = seg.text.data := joinSep_splitSep '\n' seg.text.data
  have hjoin : joinSep '\n'
      (splitSep (fun c => c == '\n') seg.text.data ++ [[]])
      = seg.text.data ++ ['\n'] := by
    rw [joinSep_append '\n' _ _ (by rw [ht]; simp) (by simp), htext]
    rfl
  simp only [segLines, List.cons_append]
  rw [joinSep_cons_cons]
  rw [ht, List.cons_append, joinSep_cons_cons]
  rw [ht, List.cons_append] at hjoin
  rw [hjoin]
  simp only [SubtitleSegment.to_srt_format, String.data_append]
  simp [List.append_assoc]

/-- A text round-trips through line splitting iff none of its lines is
blank; in particular the text is non-empty. -/
def textValid (t : String) : Prop :=
  ∀ line ∈ splitSep (fun c => c == '\n') t.data, line ≠ []

instance (t : String) : Decidable (textValid t) :=
  inferInstanceAs
    (Decidable (∀ line ∈ splitSep (fun c => c == '\n') t.data, line ≠ []))

theorem isEmpty_false_of_ne_nil {α : Type} (l : List α) (h : l ≠ []) :
    l.isEmpty = false := by
  cases l with
  | nil => exact absurd rfl h
  | cons a as => rfl

theorem segLines_nl_free (seg : SubtitleSegment) :
    ∀ g ∈ segLines seg ++ [[]], ∀ x ∈ g, (x == '\n') = false := by
  intro g hg x hx
  rcases List.mem_append.mp hg with hg | hg
  · simp only [segLines, List.mem_cons] at hg
    rcases hg with hg | hg | hg
    · subst hg
      exact digit_ne_char x (natRepr_all_digits _ x hx) '\n' (Or.inl (by decide))
    · subst hg
      rcases List.mem_append.mp hx with hx | hx
      · exact formatTimestamp_ne _ '\n' (Or.inl (by decide)) (by decide)
          (by decide) x hx
      · simp only [List.mem_cons] at hx
        rcases hx with hx | hx | hx | hx | hx | hx
        · subst hx; decide
        · subst hx; decide
        · subst hx; decide
        · subst hx; decide
        · subst hx; decide
        · exact formatTimestamp_ne _ '\n' (Or.inl (by decide)) (by decide)
            (by decide) x hx
    · exact splitSep_sep_free _ _ g hg x hx
  · simp only [List.mem_singleton] at hg
    subst hg
    simp at hx

theorem to_srt_data (segs : List SubtitleSegment) (h : segs ≠ []) :
    (joinWith "\n" (segs.map SubtitleSegment.to_srt_format)).data
      = joinSep '\n' ((segs.map (fun s => segLines s ++ [[]])).flatten) := by
  induction segs with
  | nil => exact absurd rfl h
  | cons s rest ih =>
    cases rest with
    | nil =>
      simp only [List.map_cons, List.map_nil, List.flatten, joinWith]
      rw [to_srt_format_data]
      simp
    | cons s2 rest2 =>
      have hne1 : segLines s ++ [[]] ≠ [] := by simp
      have hne2 : (((s2 :: rest2).map (fun t => segLines t ++ [[]])).flatten) ≠ [] := by
        simp
      have hstep : joinWith "\n" ((s :: s2 :: rest2).map SubtitleSegment.to_srt_format)
          = s.to_srt_format ++ "\n"
            ++ joinWith "\n" ((s2 :: rest2).map SubtitleSegment.to_srt_format) := rfl
      rw [hstep, String.data_append, String.data_append, to_srt_format_data,
        ih (by simp)]
      have hdn : ("\n" : String).data = ['\n'] := rfl
      rw [hdn, List.append_assoc, List.singleton_append]
      rw [← joinSep_append '\n' _ _ hne1 hne2]
      simp [List.append_assoc]

theorem groups_of_flatten (segs : List SubtitleSegment)
    (hv : ∀ seg ∈ segs, textValid seg.text) :
    splitSep (fun l : List Char => l.isEmpty)
        ((segs.map (fun s => segLines s ++ [[]])).flatten)
      = segs.map segLines ++ [[]] := by
  induction segs with
  | nil => rfl
  | cons s rest ih =>
    have hs : ∀ g ∈ segLines s, (fun l : List Char => l.isEmpty) g = false := by
      intro g hg
      apply isEmpty_false_of_ne_nil
      simp only [segLines, List.mem_cons] at hg
      rcases hg with hg | hg | hg
      · subst hg; exact natRepr_ne_nil _
      · subst hg; simp
      · exact hv s (by simp) g hg
    have hflat : ((s :: rest).map (fun t => segLines t ++ [[]])).flatten
        = segLines s ++ [] :: (rest.map (fun t => segLines t ++ [[]])).flatten := by
      simp [List.append_assoc]
    rw [hflat, splitSep_append _ _ _ _ rfl hs,
      ih (fun t ht => hv t (by simp [ht]))]
    simp

theorem filterMap_some_self {α : Type} (f : α → Option α) (l : List α)
    (h : ∀ x ∈ l, f x = some x) : l.filterMap f = l := by
  induction l with
  | nil => rfl
  | cons x xs ih =>
    rw [List.filterMap_cons, h x (by simp), ih (fun y hy => h y (by simp [hy]))]

theorem parseBlock_segLines (seg : SubtitleSegment) :
    parseBlock (segLines seg) = some seg := by
  obtain ⟨t1, ts, ht⟩ := List.exists_cons_of_ne_nil
    (splitSep_ne_nil (fun c => c == '\n') seg.text.data)
  have htext : String.mk (joinSep '\n' (t1 :: ts)) = seg.text := by
    rw [← ht, joinSep_splitSep]
  simp only [segLines, ht, parseBlock, parseNat_natRepr,
    parseTimestampLine_format, htext]

/-- Round trip at the segment-list level: parsing the formatted SRT text of
any list of segments with blank-line-free texts recovers the list. -/
theorem parse_srt_joinWith (segs : List SubtitleSegment)
    (hv : ∀ seg ∈ segs, textValid seg.text) :
    parse_srt (joinWith "\n" (segs.map SubtitleSegment.to_srt_format))
      = segs := by
  cases hsegs : segs with
  | nil => rfl
  | cons s rest =>
    subst hsegs
    unfold parse_srt
    rw [to_srt_data _ (by simp)]
    rw [splitSep_joinSep _ '\n' _ rfl
      (by
        intro g hg x hx
        rw [List.mem_flatten] at hg
        obtain ⟨gl, hgl, hgmem⟩ := hg
        rw [List.mem_map] at hgl
        obtain ⟨t, -, hteq⟩ := hgl
        subst hteq
        exact segLines_nl_free t g hgmem x hx)
      (by simp)]
    rw [groups_of_flatten _ hv, List.filterMap_append, List.filterMap_map]
    have h1 : (s :: rest).filterMap (parseBlock ∘ segLines) = s :: rest :=
      filterMap_some_self _ _ (fun x _ => parseBlock_segLines x)
    have h2 : List.filterMap parseBlock [[]] = [] := rfl
    rw [h1, h2, List.append_nil]

/-! ### `SubtitleService.convert_srt_to_vtt` — `services/subtitle.py`

The textual core of the conversion:
`vtt_content = "WEBVTT\n\n" + srt_content.replace(",", ".")`.
Python's one-character `str.replace` is a character-wise map.
-/

def convert_srt_to_vtt (srt_content : String) : String :=
  "WEBVTT\n\n"
    ++ String.mk (srt_content.data.map (fun c => if c = ',' then '.' else c))

/-! ### `WhisperService.transcribe` — `services/whisper.py`

The raw model output (`result["segments"]`, a list of `{start, end, text}`)
is passed in explicitly; the conversion loop
`for idx, segment in enumerate(result["segments"], start=1)` builds one
`SubtitleSegment(index=idx, start_time=segment["start"],
end_time=segment["end"], text=segment["text"].strip())` per raw segment.
-/

structure RawWhisperSegment where
  startTime : Nat
  endTime : Nat
  text : String
deriving DecidableEq, Repr

def isWhitespaceChar (c : Char) : Bool :=
  c == ' ' || c == '\t' || c == '\n' || c == '\r'

/-- Python `str.strip()`: drop leading and trailing whitespace. -/
def pyStrip (s : String) : String :=
  String.mk
    (((s.data.dropWhile isWhitespaceChar).reverse.dropWhile
        isWhitespaceChar).reverse)

def whisperSegsFrom (idx : Nat) : List RawWhisperSegment → List SubtitleSegment
  | [] => []
  | s :: rest =>
    ⟨idx, s.startTime, s.endTime, pyStrip s.text⟩
      :: whisperSegsFrom (idx + 1) rest

def whisperTranscribe (raw : List RawWhisperSegment) (language : String)
    (source : String) : TranscriptionResult :=
  ⟨whisperSegsFrom 1 raw, language, source⟩

/-- The §3 ordering invariant: adjacent segments do not overlap. -/
def segmentsOrdered (l : List SubtitleSegment) : Prop :=
  List.Chain' (fun a b => a.end_time ≤ b.start_time) l

instance (l : List SubtitleSegment) : Decidable (segmentsOrdered l) :=
  inferInstanceAs
    (Decidable
      (List.Chain' (fun a b : SubtitleSegment => a.end_time ≤ b.start_time) l))

/-! ### Cloud poll loop — `lib/aws.py` / `lib/aws/aws_transcript.py`

`transcribe_audio` polls `get_transcription_job` once per iteration,
breaks when the status is COMPLETED or FAILED, and then returns
`status['TranscriptionJob']['Transcript']['TranscriptFileUri']` of the
last status — on both branches.  The successive responses of
`get_transcription_job` are passed in as a list; the result is the number
of status checks performed together with the returned URI, and `none`
when no terminal status ever arrives (the loop would spin forever).
-/

structure TranscriptionJobStatus where
  status : String
  transcriptUri : String
deriving DecidableEq, Repr

def pollTranscriptionJob : List TranscriptionJobStatus → Option (Nat × String)
  | [] => none
  | j :: rest =>
    if j.status = "COMPLETED" ∨ j.status = "FAILED" then
      some (1, j.transcriptUri)
    else (pollTranscriptionJob rest).map (fun r => (r.1 + 1, r.2))

/-! ### Translation stage — `examples/translate_example.py`

`translate_srt_file` splits the SRT content into blank-line-delimited
blocks; for each block with at least 3 lines it extracts
`number, timestamp, text`, calls `client.translate_sync(text, ...)` and on
`TranslationError` keeps the original block.  `translate_sync` wraps every
failure (HTTP error, transport error, malformed response, any other
exception) in `TranslationError`, so the remote call is modelled as a
total function into `Except String String` whose `error` case is exactly
a raised `TranslationError`; the stage itself is total — no exception
escapes it.
-/

def translateBlock (tr : String → Except String String) (block : String) :
    String :=
  match (splitSep (fun c => c == '\n') block.data).map String.mk with
  | number :: timestamp :: t1 :: rest =>
    match tr (joinWith "\n" (t1 :: rest)) with
    | Except.ok t => number ++ "\n" ++ timestamp ++ "\n" ++ t
    | Except.error _ => block
  | _ => block

def translateSrtBlocks (tr : String → Except String String)
    (blocks : List String) : List String :=
  blocks.map (translateBlock tr)

/-- A block as assembled by the SRT formatter and consumed by the
translation stage: index line, timestamp line, text. -/
def mkBlock (number timestamp text : String) : String :=
  number ++ "\n" ++ timestamp ++ "\n" ++ text

/-! ### CLI `transcribe` command — `cli.py`

The whole body sits in one `try`; on any stage failure control jumps to
`except`, which logs and raises `typer.Exit` — skipping the cleanup.  The
cleanup `if not keep_audio and audio_path.exists(): audio_path.unlink()`
runs only after all stages succeeded.  Stage outcomes are passed in
explicitly; `audioDeleted` records whether `unlink` ran.
-/

structure PipelineOutcomes where
  infoOk : Bool
  extractOk : Bool
  transcribeOk : Bool
  muxOk : Bool
deriving DecidableEq, Repr

structure TranscribeRun where
  exitOk : Bool
  audioDeleted : Bool
deriving DecidableEq, Repr

def transcribeCommand (o : PipelineOutcomes) (addToVideo keepAudio : Bool) :
    TranscribeRun :=
  if !o.infoOk then ⟨false, false⟩
  else if !o.extractOk then ⟨false, false⟩
  else if !o.transcribeOk then ⟨false, false⟩
  else if addToVideo && !o.muxOk then ⟨false, false⟩
  else ⟨true, !keepAudio⟩

/-! ### `convert_to_srt` — `lib/json_to_srt.py` and
`lib/aws/transcript_json_to_srt.py` (identical bodies)

One transcript item of `results.items`: `type`, `start_time`, `end_time`
(converted with `float(...)`, modelled in milliseconds) and
`alternatives[0].content`.  The timestamp format string
`'{:02}:{:02}:{:02},{:03}'` with
`int(t // 3600), int(t % 3600 // 60), int(t % 60), int(t % 1 * 1000)` is
the same computation as `formatTimestamp`.
-/

structure TranscriptItem where
  itemType : String
  startTime : Nat
  endTime : Nat
  content : String
deriving DecidableEq, Repr

def srtBlockOf (counter startTime endTime : Nat) (content : String) : String :=
  String.mk (natRepr counter) ++ "\n" ++ formatTimestamp startTime ++ " --> "
    ++ formatTimestamp endTime ++ "\n" ++ content ++ "\n\n"

def convert_to_srt_aux (counter : Nat) : List TranscriptItem → String
  | [] => ""
  | item :: rest =>
    if item.itemType = "pronunciation" then
      srtBlockOf counter item.startTime item.endTime item.content
        ++ convert_to_srt_aux (counter + 1) rest
    else convert_to_srt_aux counter rest

def convert_to_srt (items : List TranscriptItem) : String :=
  convert_to_srt_aux 1 items

def concatStrings : List String → String
  | [] => ""
  | s :: rest => s ++ concatStrings rest

/-- The word-level segments §4.2 step 5 describes: keep only pronunciation
items, one `SubtitleSegment` per item carrying that item's own timing and
content, numbered sequentially starting at `idx`. -/
def numberItemsFrom (idx : Nat) : List TranscriptItem → List SubtitleSegment
  | [] => []
  | item :: rest =>
    ⟨idx, item.startTime, item.endTime, item.content⟩
      :: numberItemsFrom (idx + 1) rest

def pronunciationSegments (items : List TranscriptItem) :
    List SubtitleSegment :=
  numberItemsFrom 1 (items.filter (fun i => i.itemType == "pronunciation"))

/-! ### `FFmpegService.extract_audio` — `services/ffmpeg.py`

The named encode parameters handed to the transcode capability:
`acodec="pcm_s16le" if audio_format == "wav" else "libmp3lame"`,
`audio_bitrate=settings.audio_bitrate`, `ar="16000"`, `ac=1`.  The default
output path is `video_path.with_suffix(f".{audio_format}")`.
-/

structure FfmpegOutputArgs where
  acodec : String
  audio_bitrate : String
  ar : String
  ac : Nat
deriving DecidableEq, Repr

/-- `Path.with_suffix`: drop the extension after the last dot, if any,
then append the new suffix. -/
def with_suffix (p : String) (suffix : String) : String :=
  let parts := splitSep (fun c => c == '.') p.data
  if 2 ≤ parts.length then String.mk (joinSep '.' parts.dropLast) ++ suffix
  else p ++ suffix

def extract_audio_args (video_path : String) (output_path : Option String)
    (audio_format : String) (audio_bitrate : String) :
    FfmpegOutputArgs × String :=
  let out := match output_path with
    | some o => o
    | none => with_suffix video_path ("." ++ audio_format)
  (⟨if audio_format = "wav" then "pcm_s16le" else "libmp3lame",
    audio_bitrate, "16000", 1⟩, out)

/-! ### Remaining helper lemmas -/

theorem joinWith_map_mk (gs : List (List Char)) :
    joinWith "\n" (gs.map String.mk) = String.mk (joinSep '\n' gs) := by
  induction gs with
  | nil => rfl
  | cons g gs ih =>
    cases gs with
    | nil => rfl
    | cons g2 rest =>
      show String.mk g ++ "\n" ++ joinWith "\n" ((g2 :: rest).map String.mk) = _
      rw [ih, joinSep_cons_cons]
      apply String.ext
      simp [String.data_append, List.append_assoc]

theorem whisperSegsFrom_length (raw : List RawWhisperSegment) :
    ∀ k, (whisperSegsFrom k raw).length = raw.length := by
  induction raw with
  | nil => intro k; rfl
  | cons s rest ih => intro k; simp [whisperSegsFrom, ih (k + 1)]

theorem whisperSegsFrom_get (raw : List RawWhisperSegment) :
    ∀ k i (h : i < (whisperSegsFrom k raw).length) (h2 : i < raw.length),
      (whisperSegsFrom k raw).get ⟨i, h⟩
        = ⟨k + i, (raw.get ⟨i, h2⟩).startTime, (raw.get ⟨i, h2⟩).endTime,
            pyStrip (raw.get ⟨i, h2⟩).text⟩ := by
  induction raw with
  | nil => intro k i h h2; simp at h2
  | cons s rest ih =>
    intro k i h h2
    cases i with
    | zero => simp [whisperSegsFrom]
    | succ i =>
      have h' : i < (whisperSegsFrom (k + 1) rest).length := by
        simp only [whisperSegsFrom, List.length_cons] at h
        omega
      have h2' : i < rest.length := by simpa using h2
      have := ih (k + 1) i h' h2'
      simp only [whisperSegsFrom, List.get_cons_succ, List.length_cons]
      rw [this]
      congr 1
      omega

theorem pollTranscriptionJob_terminates (pre : List TranscriptionJobStatus)
    (j : TranscriptionJobStatus) (rest : List TranscriptionJobStatus)
    (hpre : ∀ s ∈ pre, ¬(s.status = "COMPLETED" ∨ s.status = "FAILED"))
    (hj : j.status = "COMPLETED" ∨ j.status = "FAILED") :
    pollTranscriptionJob (pre ++ j :: rest)
      = some (pre.length + 1, j.transcriptUri) := by
  induction pre with
  | nil => simp [pollTranscriptionJob, hj]
  | cons s pre' ih =>
    have hs := hpre s (by simp)
    rw [List.cons_append]
    show (if s.status = "COMPLETED" ∨ s.status = "FAILED" then _
      else (pollTranscriptionJob (pre' ++ j :: rest)).map
        (fun r => (r.1 + 1, r.2))) = _
    rw [if_neg hs, ih (fun t ht => hpre t (by simp [ht]))]
    simp [Option.map]

theorem translateBlock_mkBlock (tr : String → Except String String)
    (n t x : String)
    (hn : ∀ c ∈ n.data, (c == '\n') = false)
    (ht : ∀ c ∈ t.data, (c == '\n') = false) :
    translateBlock tr (mkBlock n t x)
      = match tr x with
        | Except.ok u => mkBlock n t u
        | Except.error _ => mkBlock n t x := by
  have hdata : (mkBlock n t x).data
      = n.data ++ '\n' :: (t.data ++ '\n' :: x.data) := by
    simp [mkBlock, String.data_append]
  have hsplit : splitSep (fun c => c == '\n') (mkBlock n t x).data
      = n.data :: t.data :: splitSep (fun c => c == '\n') x.data := by
    rw [hdata, splitSep_append _ _ '\n' _ (by decide) hn,
      splitSep_append _ _ '\n' _ (by decide) ht]
  obtain ⟨x1, xs, hx⟩ := List.exists_cons_of_ne_nil
    (splitSep_ne_nil (fun c => c == '\n') x.data)
  have hjoin : joinWith "\n" ((x1 :: xs).map String.mk) = x := by
    rw [← hx, joinWith_map_mk, joinSep_splitSep]
  have hjoin' : joinWith "\n" (String.mk x1 :: List.map String.mk xs) = x := by
    simpa using hjoin
  unfold translateBlock
  rw [hsplit, hx]
  simp only [List.map_cons]
  rw [hjoin']
  cases tr x <;> rfl

theorem numberItemsFrom_get (items : List TranscriptItem) :
    ∀ k i (h : i < (numberItemsFrom k items).length),
      ((numberItemsFrom k items).get ⟨i, h⟩).index = k + i := by
  induction items with
  | nil => intro k i h; simp [numberItemsFrom] at h
  | cons item rest ih =>
    intro k i h
    cases i with
    | zero => rfl
    | succ i =>
      have h' : i < (numberItemsFrom (k + 1) rest).length := by
        simp only [numberItemsFrom, List.length_cons] at h
        omega
      have := ih (k + 1) i h'
      simp only [numberItemsFrom, List.get_cons_succ]
      rw [this]
      omega

theorem convert_to_srt_aux_eq (items : List TranscriptItem) :
    ∀ k, convert_to_srt_aux k items
      = concatStrings
          ((numberItemsFrom k
              (items.filter (fun i => i.itemType == "pronunciation"))).map
            (fun s => srtBlockOf s.index s.start_time s.end_time s.text)) := by
  induction items with
  | nil => intro k; rfl
  | cons item rest ih =>
    intro k
    by_cases hp : item.itemType = "pronunciation"
    · have hb : (item.itemType == "pronunciation") = true := by simp [hp]
      simp only [convert_to_srt_aux, if_pos hp, List.filter_cons, hb,
        if_true, numberItemsFrom, List.map_cons, concatStrings]
      rw [ih (k + 1)]
    · have hb : (item.itemType == "pronunciation") = false := by simp [hp]
      simp only [convert_to_srt_aux, if_neg hp, List.filter_cons, hb,
        Bool.false_eq_true, if_false]
      exact ih k

/-! ### Claim theorems -/

/-- C1 counterexample: for the single segment `{0.0, 2.5, "hello"}` the
complete SRT output of `TranscriptionResult.to_srt` is
`"1\n00:00:00,000 --> 00:00:02,500\nhello\n"` — it does not end with the
blank line the claim requires. -/
theorem to_srt_single_segment_counterexample :
    TranscriptionResult.to_srt ⟨[⟨1, 0, 2500, "hello"⟩], "en", "video.mp4"⟩
        ≠ "1\n00:00:00,000 --> 00:00:02,500\nhello\n\n"
      ∧ TranscriptionResult.to_srt ⟨[⟨1, 0, 2500, "hello"⟩], "en", "video.mp4"⟩
        = "1\n00:00:00,000 --> 00:00:02,500\nhello\n" := by
  constructor
  · decide
  · decide

/-- C1 (amended): each segment is rendered as the block
`"{index}\n{start} --> {end}\n{text}\n"` and blocks are joined with a
single newline, so a blank line separates consecutive blocks but the output
ends with a single newline; for the single segment `{0.0, 2.5, "hello"}`
the complete output is exactly
`"1\n00:00:00,000 --> 00:00:02,500\nhello\n"`. -/
theorem to_srt_block_structure :
    TranscriptionResult.to_srt ⟨[⟨1, 0, 2500, "hello"⟩], "en", "video.mp4"⟩
        = "1\n00:00:00,000 --> 00:00:02,500\nhello\n"
      ∧ ∀ (a : SubtitleSegment) (rest : List SubtitleSegment) (l f : String),
          rest ≠ [] →
          TranscriptionResult.to_srt ⟨a :: rest, l, f⟩
            = a.to_srt_format ++ "\n" ++ TranscriptionResult.to_srt ⟨rest, l, f⟩ := by
  constructor
  · decide
  · intro a rest l f h
    cases rest with
    | nil => exact absurd rfl h
    | cons b rest2 => rfl

theorem to_srt_block_structure_witness :
    TranscriptionResult.to_srt
        ⟨[⟨1, 0, 2500, "hello"⟩, ⟨2, 3000, 4000, "bye"⟩], "en", "video.mp4"⟩
      = SubtitleSegment.to_srt_format ⟨1, 0, 2500, "hello"⟩ ++ "\n"
        ++ TranscriptionResult.to_srt ⟨[⟨2, 3000, 4000, "bye"⟩], "en", "video.mp4"⟩ :=
  to_srt_block_structure.2 ⟨1, 0, 2500, "hello"⟩ [⟨2, 3000, 4000, "bye"⟩]
    "en" "video.mp4" (by decide)

/-- C2 counterexample: the local Whisper backend copies raw model segments
verbatim; for raw data `[{0, 5000, "a"}, {3000, 4000, "b"}]` the produced
result violates `segments[i].end_time ≤ segments[i+1].start_time` and is
accepted silently — nothing is dropped and no error is raised (no
`MalformedTranscriptError` exists in the code). -/
theorem whisper_ordering_counterexample :
    ¬ segmentsOrdered
        (whisperTranscribe [⟨0, 5000, "a"⟩, ⟨3000, 4000, "b"⟩] "en" "a.wav").segments
      ∧ (whisperTranscribe [⟨0, 5000, "a"⟩, ⟨3000, 4000, "b"⟩] "en" "a.wav").segments
          = [⟨1, 0, 5000, "a"⟩, ⟨2, 3000, 4000, "b"⟩] := by
  constructor
  · intro h
    have hseg : (whisperTranscribe [⟨0, 5000, "a"⟩, ⟨3000, 4000, "b"⟩]
          "en" "a.wav").segments
        = [⟨1, 0, 5000, "a"⟩, ⟨2, 3000, 4000, "b"⟩] := by decide
    unfold segmentsOrdered at h
    rw [hseg] at h
    have h2 := (List.chain'_cons.mp h).1
    simp at h2
  · decide

/-- C2 (amended): backends assign `segments[i].index == i+1` by
construction, but copy the raw timing data verbatim with no ordering
validation: raw data violating the ordering invariant is accepted
silently, with no repair and no `MalformedTranscriptError`. -/
theorem whisper_segments_verbatim (raw : List RawWhisperSegment)
    (lang src : String) :
    (whisperTranscribe raw lang src).segments.length = raw.length
      ∧ ∀ i (h1 : i < (whisperTranscribe raw lang src).segments.length)
          (h2 : i < raw.length),
          (whisperTranscribe raw lang src).segments.get ⟨i, h1⟩
            = ⟨i + 1, (raw.get ⟨i, h2⟩).startTime, (raw.get ⟨i, h2⟩).endTime,
                pyStrip (raw.get ⟨i, h2⟩).text⟩ := by
  constructor
  · exact whisperSegsFrom_length raw 1
  · intro i h1 h2
    have h := whisperSegsFrom_get raw 1 i h1 h2
    rw [Nat.add_comm 1 i] at h
    exact h

theorem whisper_segments_verbatim_witness :
    (whisperTranscribe [⟨10, 20, " hi "⟩] "en" "f.wav").segments.get
        ⟨0, by decide⟩
      = ⟨0 + 1, 10, 20, pyStrip " hi "⟩ :=
  (whisper_segments_verbatim [⟨10, 20, " hi "⟩] "en" "f.wav").2 0
    (by decide) (by decide)

/-- C3 counterexample: for the status sequence `[IN_PROGRESS, FAILED]` the
poll loop performs 2 checks but then returns the transcript URI field of
the failed status exactly as on success — no `TranscriptionJobError` is
raised (the loop does not distinguish the FAILED branch, and no such error
type exists in the code). -/
theorem poll_failed_counterexample :
    pollTranscriptionJob [⟨"IN_PROGRESS", "u1"⟩, ⟨"FAILED", "u2"⟩]
      = some (2, "u2") := by decide

/-- C3 (amended): the poll loop checks the job status once per iteration
until the status is COMPLETED or FAILED, so a sequence of `n` non-terminal
statuses followed by a terminal one takes exactly `n + 1` checks; on both
COMPLETED and FAILED it returns the last status's transcript URI (it never
raises `TranscriptionJobError`). -/
theorem poll_loop_checks (pre : List TranscriptionJobStatus)
    (j : TranscriptionJobStatus) (rest : List TranscriptionJobStatus)
    (hpre : ∀ s ∈ pre, ¬(s.status = "COMPLETED" ∨ s.status = "FAILED"))
    (hj : j.status = "COMPLETED" ∨ j.status = "FAILED") :
    pollTranscriptionJob (pre ++ j :: rest)
      = some (pre.length + 1, j.transcriptUri) :=
  pollTranscriptionJob_terminates pre j rest hpre hj

theorem poll_loop_checks_witness :
    pollTranscriptionJob
        [⟨"SUBMITTED", "u0"⟩, ⟨"IN_PROGRESS", "u0"⟩, ⟨"IN_PROGRESS", "u0"⟩,
          ⟨"COMPLETED", "uri"⟩]
      = some (4, "uri") :=
  poll_loop_checks
    [⟨"SUBMITTED", "u0"⟩, ⟨"IN_PROGRESS", "u0"⟩, ⟨"IN_PROGRESS", "u0"⟩]
    ⟨"COMPLETED", "uri"⟩ [] (by decide) (by decide)

/-- C4: in the translation stage a failing remote call on one block is
caught locally — that block keeps its original text and every other block
is translated; with three blocks whose second translation fails, blocks 1
and 3 come back translated and block 2 unchanged.  The stage is a total
function (`translate_sync` wraps every exception in `TranslationError`,
which the stage catches), so no exception escapes it. -/
theorem translation_stage_fault_isolation
    (tr : String → Except String String)
    (n1 t1 x1 n2 t2 x2 n3 t3 x3 u1 u3 e : String)
    (hn1 : ∀ c ∈ n1.data, (c == '\n') = false)
    (ht1 : ∀ c ∈ t1.data, (c == '\n') = false)
    (hn2 : ∀ c ∈ n2.data, (c == '\n') = false)
    (ht2 : ∀ c ∈ t2.data, (c == '\n') = false)
    (hn3 : ∀ c ∈ n3.data, (c == '\n') = false)
    (ht3 : ∀ c ∈ t3.data, (c == '\n') = false)
    (h1 : tr x1 = Except.ok u1) (h2 : tr x2 = Except.error e)
    (h3 : tr x3 = Except.ok u3) :
    translateSrtBlocks tr
        [mkBlock n1 t1 x1, mkBlock n2 t2 x2, mkBlock n3 t3 x3]
      = [mkBlock n1 t1 u1, mkBlock n2 t2 x2, mkBlock n3 t3 u3] := by
  simp only [translateSrtBlocks, List.map_cons, List.map_nil,
    translateBlock_mkBlock tr n1 t1 x1 hn1 ht1,
    translateBlock_mkBlock tr n2 t2 x2 hn2 ht2,
    translateBlock_mkBlock tr n3 t3 x3 hn3 ht3, h1, h2, h3]

theorem translation_stage_fault_isolation_witness :
    translateSrtBlocks
        (fun s => if s = "b" then Except.error "boom" else Except.ok (s ++ "!"))
        [mkBlock "1" "00:00:00,000 --> 00:00:01,000" "a",
          mkBlock "2" "00:00:01,000 --> 00:00:02,000" "b",
          mkBlock "3" "00:00:02,000 --> 00:00:03,000" "c"]
      = [mkBlock "1" "00:00:00,000 --> 00:00:01,000" "a!",
          mkBlock "2" "00:00:01,000 --> 00:00:02,000" "b",
          mkBlock "3" "00:00:02,000 --> 00:00:03,000" "c!"] :=
  translation_stage_fault_isolation
    (fun s => if s = "b" then Except.error "boom" else Except.ok (s ++ "!"))
    "1" "00:00:00,000 --> 00:00:01,000" "a"
    "2" "00:00:01,000 --> 00:00:02,000" "b"
    "3" "00:00:02,000 --> 00:00:03,000" "c" "a!" "c!" "boom"
    (by decide) (by decide) (by decide) (by decide) (by decide) (by decide)
    rfl rfl rfl

/-- C5 counterexample: the SRT→VTT conversion is a blind global
`replace(",", ".")`; a literal comma inside the subtitle text
(`"Hello, world"`) is turned into a period, and the output contains no
comma at all. -/
theorem vtt_text_comma_counterexample :
    convert_srt_to_vtt "1\n00:00:01,000 --> 00:00:02,000\nHello, world\n"
        = "WEBVTT\n\n1\n00:00:01.000 --> 00:00:02.000\nHello. world\n"
      ∧ ',' ∉ (convert_srt_to_vtt
          "1\n00:00:01,000 --> 00:00:02,000\nHello, world\n").data := by
  constructor
  · decide
  · decide

/-- C5 (amended): the conversion prefixes the content with `"WEBVTT\n\n"`
and replaces every comma with a period — including commas inside subtitle
text — so the output never contains a comma. -/
theorem vtt_blind_comma_replace (srt : String) :
    (convert_srt_to_vtt srt).data
        = ("WEBVTT\n\n" : String).data
          ++ srt.data.map (fun c => if c = ',' then '.' else c)
      ∧ ',' ∉ (convert_srt_to_vtt srt).data := by
  constructor
  · simp [convert_srt_to_vtt, String.data_append]
  · intro hmem
    simp only [convert_srt_to_vtt, String.data_append, List.mem_append] at hmem
    rcases hmem with hmem | hmem
    · exact absurd hmem (by decide)
    · rw [List.mem_map] at hmem
      obtain ⟨c, -, hc⟩ := hmem
      by_cases h : c = ','
      · simp [h] at hc
      · rw [if_neg h] at hc
        exact h hc

/-- C6 counterexample: the claim quantifies over all valid segment
sequences, and §3 only requires a segment text to be non-empty; a segment
whose text contains a blank line (`"a\n\nb"`) is valid in that sense, yet
parsing its formatted SRT yields a segment with text `"a"` — the blank
line inside the text is indistinguishable from a block boundary. -/
theorem round_trip_blank_line_counterexample :
    parse_srt (TranscriptionResult.to_srt
          ⟨[⟨1, 0, 2500, "a\n\nb"⟩], "en", "v.mp4"⟩)
        ≠ [⟨1, 0, 2500, "a\n\nb"⟩]
      ∧ parse_srt (TranscriptionResult.to_srt
          ⟨[⟨1, 0, 2500, "a\n\nb"⟩], "en", "v.mp4"⟩)
        = [⟨1, 0, 2500, "a"⟩] := by
  constructor
  · decide
  · decide

/-- C6 (amended): for every segment sequence whose texts contain no blank
line (no empty line when split at newlines — in particular each text is
non-empty), parsing the formatted SRT text yields the original segments
back, on index, timing and text alike; blocks are recovered by splitting
at blank lines and a block with fewer than 3 lines is skipped rather than
failing the parse. -/
theorem parse_srt_round_trip (r : TranscriptionResult)
    (hv : ∀ seg ∈ r.segments, textValid seg.text) :
    parse_srt r.to_srt = r.segments :=
  parse_srt_joinWith r.segments hv

theorem parse_srt_round_trip_witness :
    parse_srt (TranscriptionResult.to_srt
        ⟨[⟨1, 0, 2500, "hello"⟩, ⟨2, 3000, 4500, "two\nlines"⟩], "en", "v.mp4"⟩)
      = [⟨1, 0, 2500, "hello"⟩, ⟨2, 3000, 4500, "two\nlines"⟩] :=
  parse_srt_round_trip
    ⟨[⟨1, 0, 2500, "hello"⟩, ⟨2, 3000, 4500, "two\nlines"⟩], "en", "v.mp4"⟩
    (by decide)

/-- C7: the timestamp formatter maps milliseconds to `HH:MM:SS,mmm` with a
comma millisecond separator and 2/2/2/3 zero padding: 0 s is
`00:00:00,000`, 3661.5 s is `01:01:01,500`, exactly 3600 s is
`01:00:00,000`, 25 h is `25:00:00,000`, and in general the hours field is
the full hour count (`h` hours render as the decimal of `h`, never reduced
modulo 24). -/
theorem formatTimestamp_spec :
    formatTimestamp 0 = "00:00:00,000"
      ∧ formatTimestamp 3661500 = "01:01:01,500"
      ∧ formatTimestamp 3600000 = "01:00:00,000"
      ∧ formatTimestamp 90000000 = "25:00:00,000"
      ∧ ∀ h : Nat, formatTimestamp (h * 3600000)
          = String.mk (fmtPad 2 h) ++ ":00:00,000" := by
  refine ⟨by decide, by decide, by decide, by decide, ?_⟩
  intro h
  have e1 : h * 3600000 / 3600000 = h := by omega
  have e2 : h * 3600000 % 3600000 = 0 := by omega
  have e3 : h * 3600000 % 60000 = 0 := by omega
  have e4 : h * 3600000 % 1000 = 0 := by omega
  unfold formatTimestamp
  rw [e1, e2, e3, e4]
  rfl

/-- C8 counterexample: with audio extraction succeeded, transcription
failed and the caller not opting to keep the audio, the `transcribe`
command exits through its `except` branch without deleting the extracted
audio artifact — the cleanup is not on the failure path. -/
theorem cleanup_skipped_on_failure_counterexample :
    transcribeCommand ⟨true, true, false, true⟩ false false
      = ⟨false, false⟩ := by decide

/-- C8 (amended): the `transcribe` command deletes the intermediate audio
artifact exactly when the whole run succeeds and the caller did not opt to
keep it; when any stage fails (including transcription or subtitle muxing,
after the audio exists) the command unwinds through its exception handler
and the audio file is left behind. -/
theorem audio_cleanup_only_on_success (o : PipelineOutcomes) (a k : Bool) :
    (transcribeCommand o a k).audioDeleted
      = (o.infoOk && o.extractOk && o.transcribeOk && (!a || o.muxOk) && !k) := by
  rcases o with ⟨i, e, t, m⟩
  cases i <;> cases e <;> cases t <;> cases m <;> cases a <;> cases k <;> rfl

/-- C9: `convert_to_srt` emits exactly one block per item of type
`pronunciation`, in order, numbered sequentially from 1, each carrying
that item's own start time, end time and content; punctuation items
contribute no block and do not advance the counter, and consecutive items
are never merged into sentence-level segments. -/
theorem convert_to_srt_word_level (items : List TranscriptItem) :
    convert_to_srt items
        = concatStrings ((pronunciationSegments items).map
            (fun s => srtBlockOf s.index s.start_time s.end_time s.text))
      ∧ ∀ i (h : i < (pronunciationSegments items).length),
          ((pronunciationSegments items).get ⟨i, h⟩).index = i + 1 := by
  constructor
  · exact convert_to_srt_aux_eq items 1
  · intro i h
    have h2 := numberItemsFrom_get
      (items.filter (fun it => it.itemType == "pronunciation")) 1 i h
    rw [Nat.add_comm] at h2
    exact h2

theorem convert_to_srt_word_level_witness :
    convert_to_srt
        [⟨"pronunciation", 100, 500, "Hello"⟩, ⟨"punctuation", 0, 0, ","⟩,
          ⟨"pronunciation", 600, 900, "world"⟩]
        = concatStrings ((pronunciationSegments
            [⟨"pronunciation", 100, 500, "Hello"⟩, ⟨"punctuation", 0, 0, ","⟩,
              ⟨"pronunciation", 600, 900, "world"⟩]).map
            (fun s => srtBlockOf s.index s.start_time s.end_time s.text))
      ∧ ((pronunciationSegments
            [⟨"pronunciation", 100, 500, "Hello"⟩, ⟨"punctuation", 0, 0, ","⟩,
              ⟨"pronunciation", 600, 900, "world"⟩]).get
          ⟨0, by decide⟩).index = 0 + 1 :=
  ⟨(convert_to_srt_word_level
      [⟨"pronunciation", 100, 500, "Hello"⟩, ⟨"punctuation", 0, 0, ","⟩,
        ⟨"pronunciation", 600, 900, "world"⟩]).1,
    (convert_to_srt_word_level
      [⟨"pronunciation", 100, 500, "Hello"⟩, ⟨"punctuation", 0, 0, ","⟩,
        ⟨"pronunciation", 600, 900, "world"⟩]).2 0 (by decide)⟩

/-- C10: every call of `extract_audio` requests a 16000 Hz sample rate and
a single (mono) audio channel from the transcode capability, whatever the
caller passes for the video path, the output path, the audio format or the
configured bitrate; the parameter list offers no way to choose a different
sample rate or channel count. -/
theorem extract_audio_fixed_rate_and_channels (video_path : String)
    (output_path : Option String) (audio_format audio_bitrate : String) :
    ((extract_audio_args video_path output_path audio_format
        audio_bitrate).1).ar = "16000"
      ∧ ((extract_audio_args video_path output_path audio_format
          audio_bitrate).1).ac = 1 :=
  ⟨rfl, rfl⟩

end VideoTranslator
